import Mathlib

/-!
Shallow embedding of the reV execution core: `ProjectPoints` / `ExecutionControl`
from `reV/config/config.py` and `SmartParallelJob` / `SubprocessManager.walltime`
from `reV/utilities/execution.py`, together with theorems settling the frozen
claims about partitioning, execution-plan iteration, flush control and the
walltime formatter.
-/

set_option maxRecDepth 100000

namespace ReV

/-- Natural-number ceiling division, the meaning of Python `ceil(a / b)` on
nonnegative integers with `b > 0`. -/
def ceilDiv (a b : ℕ) : ℕ := (a + b - 1) / b

/-- Python list slicing `l[i0:i1]` for nonnegative indices: the elements at
positions `[i0, i1)`, clamped to the list length. -/
def pyListSlice (l : List ℤ) (i0 i1 : ℕ) : List ℤ := (l.drop i0).take (i1 - i0)

/-- Python `list(range(a, b))` (unit step). -/
def pyRange1 (a b : ℤ) : List ℤ :=
  (List.range (b - a).toNat).map fun k : ℕ => a + (k : ℤ)

/-- Python `list(range(start, stop, step))` for a positive `step`. -/
def pyRangeStep (start stop step : ℤ) : List ℤ :=
  (List.range (((stop - start) + step - 1) / step).toNat).map
    fun k : ℕ => start + step * (k : ℤ)

/-- The site container of a `ProjectPoints` instance: either an explicit
ordered list of site ids (`list`/`tuple` in the source) or a Python `slice`
object `slice(start, stop, step)` where `stop`/`step` may be `None`. -/
inductive Sites where
  | list (l : List ℤ)
  | slice (start : ℤ) (stop : Option ℤ) (step : Option ℤ)
deriving DecidableEq

/-- The materialization `list(range(*slice(start, ·, step).indices(length)))`
performed by the `ProjectPoints.sites` setter, for a positive step: Python's
`slice.indices` clamps the start into `[0, length]` (counting a negative start
from the end), and the resulting range runs up to `length`. -/
def pyResolvedSlice (start length step : ℤ) : List ℤ :=
  pyRangeStep (if start < 0 then max (length + start) 0 else min start length)
    length step

/-- The `ProjectPoints.sites` setter: an explicit list is stored directly; a
slice with a truthy stop is materialized as `list(range(*sites.indices(stop)))`;
a slice whose stop is falsy (`None` or 0) is materialized the same way after
resolving the length from the row count of the first resource file's meta
table. That row count comes from `Resource`, which lives outside these
sources; the spec's site-count oracle is idempotent and side-effect-free, so
it enters here as the injected `oracle` value. Every slice is materialized, so
no `ProjectPoints` instance ever carries slice-typed sites. -/
def Sites.parse (oracle : ℕ) : Sites → Sites
  | .list l => .list l
  | .slice start (some stop) step =>
    if stop ≠ 0 then .list (pyResolvedSlice start stop (step.getD 1))
    else .list (pyResolvedSlice start (oracle : ℤ) (step.getD 1))
  | .slice start none step => .list (pyResolvedSlice start (oracle : ℤ) (step.getD 1))

/-- Python truthiness of the `sites` attribute (`if not sites: ...`): an empty
list is falsy; a slice object is always truthy. -/
def Sites.isEmptyPy : Sites → Bool
  | .list l => l.isEmpty
  | .slice _ _ _ => false

/-- Number of sites held in list form (0 for an unresolved range form). -/
def Sites.len : Sites → ℕ
  | .list l => l.length
  | .slice _ _ _ => 0

/-- The parts of a `ProjectPoints` instance the execution core reads: the raw
site specification (`_raw`, whatever `parse_project_points` consumed) and the
parsed `sites` attribute. -/
structure ProjectPoints where
  raw : Sites
  sites : Sites
deriving DecidableEq

/-- `ProjectPoints.__init__`: parse the raw specification into the sites
attribute, resolving any falsy slice stop through the site-count oracle. -/
def ProjectPoints.make (oracle : ℕ) (raw : Sites) : ProjectPoints :=
  ⟨raw, raw.parse oracle⟩

/-- `ProjectPoints.split(i0, i1, config_pp, ...)`: rebuild a fresh instance
from the raw specification (the sites setter materializes every slice, so the
rebuilt sites are always an explicit list), then branch on the sites type
exactly as the source does: slice the explicit site list by position, or — in
the slice branch, which no parsed instance can reach — fail on a non-unit
open-ended step and otherwise produce
`list(range(start + i0, start + (i1 - i0)))`. -/
def ProjectPoints.split (oracle : ℕ) (i0 i1 : ℕ) (raw : Sites) :
    Except String ProjectPoints :=
  let sub := ProjectPoints.make oracle raw
  match sub.sites with
  | .list l => .ok { sub with sites := .list (pyListSlice l i0 i1) }
  | .slice start stop step =>
    if stop = none ∧ step ≠ some 1 ∧ step ≠ none then
      .error "Cannot perform a project points split on a non-sequential slice with no stop"
    else
      .ok { sub with
              sites := .list (pyRange1 (start + (i0 : ℤ)) (start + ((i1 : ℤ) - (i0 : ℤ)))) }

/-- The parts of an `ExecutionControl` instance the claims read: the raw
`execution_control` config entries (`nodes`, `ppn`, `sites_per_core`, each
possibly absent, and `sites_per_core` additionally possibly present as `None`),
the current execution level, the owned `ProjectPoints`, and the resource-file
list. -/
structure ExecutionControl where
  rawNodes : Option ℕ
  rawPpn : Option ℕ
  rawSitesPerCore : Option (Option ℕ)
  level : String
  pp : ProjectPoints
  resFiles : List String
deriving DecidableEq

namespace ExecutionControl

/-- `ExecutionControl.nodes`: the raw value if the key is present, else 1. -/
def nodes (ec : ExecutionControl) : ℕ := ec.rawNodes.getD 1

/-- `ExecutionControl.ppn`: the raw value if the key is present, else 1. -/
def ppn (ec : ExecutionControl) : ℕ := ec.rawPpn.getD 1

/-- `ExecutionControl.p_tot = nodes * ppn`. -/
def p_tot (ec : ExecutionControl) : ℕ := ec.nodes * ec.ppn

/-- `ExecutionControl.n_sites`: for an open-ended range the string `'inf'`
(here `none`); otherwise the length of the site sequence times the number of
resource files. -/
def n_sites (ec : ExecutionControl) : Option ℕ :=
  match ec.pp.sites with
  | .slice start stop step =>
    match stop with
    | none => none
    | some stp => some ((pyRangeStep start stp (step.getD 1)).length * ec.resFiles.length)
  | .list l => some (l.length * ec.resFiles.length)

/-- `ExecutionControl.N = ceil(n_sites / p_tot)`, the iterator limit; `none`
models the `TypeError` of `ceil('inf' / p_tot)` on an unresolved site count. -/
def N (ec : ExecutionControl) : Option ℕ :=
  ec.n_sites.map fun n => ceilDiv n ec.p_tot

/-- `ExecutionControl.sites_per_core`: a truthy raw value is used as is; a raw
`None` (or an absent key) with `n_sites == 'inf'` falls back to 100 with a
`ConfigWarning` (the `Bool` component records that the warning was raised);
otherwise `ceil(n_sites / p_tot)`. A falsy-but-not-`None` raw value with
`n_sites == 'inf'` hits `ceil('inf' / p_tot)` and is modelled as `none`. -/
def sites_per_core (ec : ExecutionControl) : Option (ℕ × Bool) :=
  match ec.rawSitesPerCore with
  | some (some v) =>
    if v ≠ 0 then some (v, false)
    else ec.n_sites.map fun n => (ceilDiv n ec.p_tot, false)
  | some none =>
    match ec.n_sites with
    | none => some (100, true)
    | some n => some (ceilDiv n ec.p_tot, false)
  | none =>
    match ec.n_sites with
    | none => some (100, true)
    | some n => some (ceilDiv n ec.p_tot, false)

/-- `ExecutionControl.split_level`: the one-entry table `{'supervisor': 'core'}`;
any other current level raises `KeyError`. -/
def splitLevelOf (level : String) : Except String String :=
  if level = "supervisor" then .ok "core"
  else .error ("Current execution level cannot be split: " ++ level)

/-- `ExecutionControl.split`: split the project points from the RAW points
specification at positions `[i0, i1)` and wrap the result in a new instance
carrying the same raw execution config and resource files at the given level. -/
def split (ec : ExecutionControl) (oracle : ℕ) (lvl : String) (i0 i1 : ℕ) :
    Except String ExecutionControl :=
  (ProjectPoints.split oracle i0 i1 ec.pp.raw).map fun np =>
    { rawNodes := ec.rawNodes, rawPpn := ec.rawPpn,
      rawSitesPerCore := ec.rawSitesPerCore, level := lvl, pp := np,
      resFiles := ec.resFiles }

/-- The `__next__` loop body, unrolled over the remaining iteration budget `k`
(initially `N`): step from site index `i0` to `i0 + c`, stop the moment a
produced sub-instance has an empty (falsy) site set, and collect the yielded
sub-instances in order. -/
def iterLoop (ec : ExecutionControl) (oracle : ℕ) (lvl : String) (c : ℕ) :
    ℕ → ℕ → Except String (List ExecutionControl)
  | 0, _ => .ok []
  | k + 1, i0 =>
    match ec.split oracle lvl i0 (i0 + c) with
    | .error e => .error e
    | .ok sub =>
      if sub.pp.sites.isEmptyPy then .ok []
      else (iterLoop ec oracle lvl c k (i0 + c)).map fun rest => sub :: rest

/-- Full iteration of an `ExecutionControl`: `__iter__` touches `split_level`
and `N` (in that order, inside the debug log), so a non-splittable level raises
`KeyError` and an unresolved site count raises before anything is yielded;
then `__next__` runs at increment `sites_per_core` until `N` steps were taken
or an empty sub-PointSet appeared. -/
def iterAll (ec : ExecutionControl) (oracle : ℕ) :
    Except String (List ExecutionControl) :=
  match splitLevelOf ec.level with
  | .error e => .error e
  | .ok lvl =>
    match ec.N with
    | none => .error "unsupported operand: ceil of inf"
    | some n =>
      match ec.sites_per_core with
      | none => .error "unsupported operand: ceil of inf"
      | some (c, _) => ec.iterLoop oracle lvl c n 0

end ExecutionControl

/-- Observable effect counters of one `SmartParallelJob.run`: the number of
pending futures, the number of result hand-offs to the sink (`obj.out =
client.gather(futures)` assignments), the number of `obj.flush()` calls, and
the number of `client.restart()` calls (worker-pool recycles). -/
structure JobState where
  pending : ℕ
  accumulateCalls : ℕ
  flushCalls : ℕ
  restartCalls : ℕ
deriving DecidableEq

namespace SmartParallelJob

/-- The memory gate of `gather_and_flush`:
`(mem.used / mem.total) >= self.mem_util_lim` for a sampled utilization ratio. -/
def shouldFlush (ratio lim : ℚ) : Bool := lim ≤ ratio

/-- `SmartParallelJob.gather_and_flush`: gather all pending futures into the
sink (one accumulate, futures cleared), sample memory, and if the sampled
ratio reaches the limit or `force_flush` is set, restart the dask client
(recycle the pool) and flush the sink. -/
def gatherAndFlush (lim ratio : ℚ) (forceFlush : Bool) (s : JobState) : JobState :=
  let s1 : JobState := { s with pending := 0, accumulateCalls := s.accumulateCalls + 1 }
  if shouldFlush ratio lim || forceFlush then
    { s1 with restartCalls := s1.restartCalls + 1, flushCalls := s1.flushCalls + 1 }
  else s1

/-- One pass of the submission loop body at enumeration index `i`: submit one
future, and after every `n_workers`-th submission (`(i + 1) % n_workers == 0`)
run a non-forced `gather_and_flush`, sampling the next ratio of the ambient
memory sequence (indexed by the number of gathers so far). -/
def submitStep (w : ℕ) (lim : ℚ) (ratios : ℕ → ℚ) (s : JobState) (i : ℕ) : JobState :=
  let s1 : JobState := { s with pending := s.pending + 1 }
  if (i + 1) % w = 0 then gatherAndFlush lim (ratios s1.accumulateCalls) false s1 else s1

/-- `SmartParallelJob.run` over `units` work items with `w` workers: the
enumeration loop with a round gather after every `w` submissions, followed by
the unconditional final `gather_and_flush(..., force_flush=True)`. The host
memory utilization is injected as the sequence `ratios` of sampled ratios, one
per gather round. -/
def run (w units : ℕ) (lim : ℚ) (ratios : ℕ → ℚ) : JobState :=
  let s := (List.range units).foldl (submitStep w lim ratios) ⟨0, 0, 0, 0⟩
  gatherAndFlush lim (ratios s.accumulateCalls) true s

end SmartParallelJob

/-- Python 3 `round` (banker's rounding, half to even) on an exact rational. -/
def pyRound (q : ℚ) : ℤ :=
  if q - ⌊q⌋ < 1 / 2 then ⌊q⌋
  else if 1 / 2 < q - ⌊q⌋ then ⌊q⌋ + 1
  else if ⌊q⌋ % 2 = 0 then ⌊q⌋ else ⌊q⌋ + 1

/-- Python `q % 1` for a nonneg modulus: the fractional part. -/
def pyMod1 (q : ℚ) : ℚ := q - ⌊q⌋

/-- Python `'{0:02d}'.format(n)`: decimal rendering zero-padded to a minimum
width of two characters. -/
def pad2 (n : ℤ) : String :=
  if 0 ≤ n ∧ n < 10 then "0" ++ toString n else toString n

namespace SubprocessManager

/-- The minute value `round(60 * (hours % 1))` computed by `walltime`. -/
def minuteOf (hours : ℚ) : ℤ := pyRound (60 * pyMod1 hours)

/-- `SubprocessManager.walltime(hours)`: `'{h}:{m}:00'` from
`h = '{0:02d}'.format(floor(hours))` and
`m = '{0:02d}'.format(round(60 * (hours % 1)))`. -/
def walltime (hours : ℚ) : String :=
  let m_str := pad2 (pyRound (60 * (pyMod1 hours)))
  let h_str := pad2 ⌊hours⌋
  h_str ++ ":" ++ m_str ++ ":00"

end SubprocessManager

/-! ## Helper lemmas -/

lemma ExecutionControl.split_ok_level {ec : ExecutionControl} {oracle : ℕ}
    {lvl : String} {i0 i1 : ℕ} {sub : ExecutionControl}
    (h : ec.split oracle lvl i0 i1 = .ok sub) : sub.level = lvl := by
  unfold ExecutionControl.split at h
  cases hs : ProjectPoints.split oracle i0 i1 ec.pp.raw with
  | error e => rw [hs] at h; simp [Except.map] at h
  | ok np =>
    rw [hs] at h
    simp only [Except.map, Except.ok.injEq] at h
    rw [← h]

lemma ExecutionControl.iterLoop_level (ec : ExecutionControl) (oracle : ℕ)
    (lvl : String) (c : ℕ) : ∀ k i0 subs, ec.iterLoop oracle lvl c k i0 = .ok subs →
    ∀ s ∈ subs, s.level = lvl := by
  intro k
  induction k with
  | zero =>
    intro i0 subs h s hs
    simp only [ExecutionControl.iterLoop, Except.ok.injEq] at h
    subst h
    simp at hs
  | succ k ih =>
    intro i0 subs h s hs
    unfold ExecutionControl.iterLoop at h
    cases hsp : ec.split oracle lvl i0 (i0 + c) with
    | error e => rw [hsp] at h; exact absurd h (by simp)
    | ok sub =>
      rw [hsp] at h
      dsimp only at h
      by_cases hemp : sub.pp.sites.isEmptyPy
      · rw [if_pos hemp] at h
        simp only [Except.ok.injEq] at h
        subst h
        simp at hs
      · rw [if_neg hemp] at h
        cases hrec : ec.iterLoop oracle lvl c k (i0 + c) with
        | error e => rw [hrec] at h; simp [Except.map] at h
        | ok rest =>
          rw [hrec] at h
          simp only [Except.map, Except.ok.injEq] at h
          subst h
          rcases List.mem_cons.mp hs with rfl | hs
          · exact ExecutionControl.split_ok_level hsp
          · exact ih (i0 + c) rest hrec s hs

lemma pyListSlice_chunk (l : List ℤ) (c k : ℕ) :
    pyListSlice l (k * c) ((k + 1) * c) = (l.drop (k * c)).take c := by
  unfold pyListSlice
  congr 1
  rw [Nat.succ_mul, Nat.add_sub_cancel_left]

lemma chunks_flatten (l : List ℤ) (c : ℕ) :
    ∀ m, ((List.range m).map fun k => (l.drop (k * c)).take c).flatten =
      l.take (m * c) := by
  intro m
  induction m with
  | zero => simp
  | succ m ih =>
    rw [List.range_succ, List.map_append, List.flatten_append, ih]
    simp only [List.map_cons, List.map_nil, List.flatten_cons, List.flatten_nil,
      List.append_nil]
    rw [Nat.succ_mul, List.take_add]

lemma le_ceilDiv_mul (n c : ℕ) (hc : 0 < c) : n ≤ ceilDiv n c * c := by
  by_contra hlt
  push_neg at hlt
  have h1 : (ceilDiv n c + 1) * c ≤ n + c - 1 := by
    rw [Nat.succ_mul]; omega
  have h2 : ceilDiv n c + 1 ≤ (n + c - 1) / c := (Nat.le_div_iff_mul_le hc).mpr h1
  have h3 : (n + c - 1) / c = ceilDiv n c := rfl
  omega

lemma chunk_disjoint_aux (l : List ℤ) (c : ℕ) (hnd : l.Nodup) {k k' : ℕ}
    (hkk : k < k') : ∀ x, x ∈ (l.drop (k * c)).take c →
    x ∉ (l.drop (k' * c)).take c := by
  intro x hx hx'
  have h1 : x ∈ l.take (k * c + c) := by
    have he : (l.drop (k * c)).take c = (l.take (k * c + c)).drop (k * c) := by
      rw [List.drop_take, Nat.add_sub_cancel_left]
    rw [he] at hx
    exact List.drop_subset _ _ hx
  have hle : k * c + c ≤ k' * c := by
    have h := Nat.mul_le_mul_right c (Nat.succ_le_of_lt hkk)
    rwa [Nat.succ_mul] at h
  have h2 : x ∈ l.drop (k * c + c) := by
    have hsub : x ∈ l.drop (k' * c) := List.take_subset _ _ hx'
    have he : l.drop (k' * c) = (l.drop (k * c + c)).drop (k' * c - (k * c + c)) := by
      rw [List.drop_drop]
      congr 1
      exact (Nat.add_sub_cancel' hle).symm
    rw [he] at hsub
    exact List.drop_subset _ _ hsub
  rw [← List.take_append_drop (k * c + c) l] at hnd
  exact (List.nodup_append.mp hnd).2.2 h1 h2

lemma ceilDiv_zero_left (c : ℕ) (hc : 0 < c) : ceilDiv 0 c = 0 := by
  unfold ceilDiv
  exact Nat.div_eq_of_lt (by omega)

lemma ceilDiv_step (m c : ℕ) (hc : 0 < c) (hm : 0 < m) :
    ceilDiv m c = ceilDiv (m - c) c + 1 := by
  unfold ceilDiv
  rcases le_or_lt m c with h | h
  · have hrz : m - c = 0 := by omega
    rw [hrz]
    have h0 : (0 + c - 1) / c = 0 := Nat.div_eq_of_lt (by omega)
    rw [h0]
    have e1 : m + c - 1 = (m - 1) + c := by omega
    rw [e1, Nat.add_div_right _ hc]
    have h1 : (m - 1) / c = 0 := Nat.div_eq_of_lt (by omega)
    omega
  · have e1 : m + c - 1 = (m - 1) + c := by omega
    have e2 : (m - c) + c - 1 = (m - c - 1) + c := by omega
    rw [e1, e2, Nat.add_div_right _ hc, Nat.add_div_right _ hc]
    have e3 : m - 1 = (m - c - 1) + c := by omega
    rw [e3, Nat.add_div_right _ hc]

lemma ExecutionControl.split_list_ok (ec : ExecutionControl) (oracle : ℕ)
    (lvl : String) (i0 i1 : ℕ) (l : List ℤ)
    (hraw : Sites.parse oracle ec.pp.raw = Sites.list l) :
    ec.split oracle lvl i0 i1 = .ok
      { rawNodes := ec.rawNodes, rawPpn := ec.rawPpn,
        rawSitesPerCore := ec.rawSitesPerCore, level := lvl,
        pp := { raw := ec.pp.raw, sites := Sites.list (pyListSlice l i0 i1) },
        resFiles := ec.resFiles } := by
  unfold ExecutionControl.split ProjectPoints.split ProjectPoints.make
  dsimp only
  rw [hraw]
  rfl

lemma ExecutionControl.iterLoop_list_len (ec : ExecutionControl) (oracle : ℕ)
    (lvl : String) (c : ℕ) (hc : 0 < c) (l : List ℤ)
    (hraw : Sites.parse oracle ec.pp.raw = Sites.list l) :
    ∀ k i0, (ec.iterLoop oracle lvl c k i0).map List.length =
      .ok (min k (ceilDiv (l.length - i0) c)) := by
  intro k
  induction k with
  | zero =>
    intro i0
    simp [ExecutionControl.iterLoop, Except.map]
  | succ k ih =>
    intro i0
    unfold ExecutionControl.iterLoop
    rw [ExecutionControl.split_list_ok ec oracle lvl i0 (i0 + c) l hraw]
    dsimp only [Sites.isEmptyPy]
    have hch : pyListSlice l i0 (i0 + c) = (l.drop i0).take c := by
      unfold pyListSlice
      congr 1
      omega
    by_cases hle : l.length ≤ i0
    · have hemp : (pyListSlice l i0 (i0 + c)).isEmpty = true := by
        rw [hch, List.drop_eq_nil_of_le hle]
        simp
      rw [if_pos hemp]
      have hz : l.length - i0 = 0 := by omega
      rw [hz, ceilDiv_zero_left c hc]
      simp [Except.map]
    · have hemp : (pyListSlice l i0 (i0 + c)).isEmpty = false := by
        rw [hch]
        rw [List.isEmpty_eq_false]
        intro hnil
        have hlen := congrArg List.length hnil
        simp only [List.length_take, List.length_drop, List.length_nil] at hlen
        omega
      rw [if_neg (by simp [hemp])]
      cases hrec : ec.iterLoop oracle lvl c k (i0 + c) with
      | error e =>
        have h := ih (i0 + c)
        rw [hrec] at h
        simp [Except.map] at h
      | ok rest =>
        have hlen : rest.length = min k (ceilDiv (l.length - (i0 + c)) c) := by
          have h := ih (i0 + c)
          rw [hrec] at h
          simpa [Except.map] using h
        simp only [hrec, Except.map]
        rw [List.length_cons, hlen]
        have hsub : l.length - (i0 + c) = l.length - i0 - c := by omega
        have hstep : ceilDiv (l.length - i0) c = ceilDiv (l.length - i0 - c) c + 1 :=
          ceilDiv_step (l.length - i0) c hc (by omega)
        rw [hsub, hstep, Nat.succ_min_succ]

lemma SmartParallelJob.runFold_spec (w : ℕ) (lim : ℚ)
    (ratios : ℕ → ℚ) : ∀ units,
    (List.range units).foldl (SmartParallelJob.submitStep w lim ratios)
        ⟨0, 0, 0, 0⟩ =
      { pending := units % w, accumulateCalls := units / w,
        flushCalls := ((List.range (units / w)).filter fun r =>
          SmartParallelJob.shouldFlush (ratios r) lim).length,
        restartCalls := ((List.range (units / w)).filter fun r =>
          SmartParallelJob.shouldFlush (ratios r) lim).length } := by
  intro units
  induction units with
  | zero => simp
  | succ n ih =>
    rw [List.range_succ, List.foldl_append, ih]
    simp only [List.foldl_cons, List.foldl_nil]
    by_cases hdvd : (n + 1) % w = 0
    · have hdiv : (n + 1) / w = n / w + 1 :=
        Nat.succ_div_of_dvd (Nat.dvd_of_mod_eq_zero hdvd)
      have hF : ((List.range (n / w + 1)).filter fun r =>
            SmartParallelJob.shouldFlush (ratios r) lim).length =
          ((List.range (n / w)).filter fun r =>
            SmartParallelJob.shouldFlush (ratios r) lim).length +
          (if SmartParallelJob.shouldFlush (ratios (n / w)) lim then 1 else 0) := by
        rw [List.range_succ, List.filter_append, List.length_append]
        by_cases hsf : SmartParallelJob.shouldFlush (ratios (n / w)) lim <;>
          simp [hsf]
      unfold SmartParallelJob.submitStep SmartParallelJob.gatherAndFlush
      rw [if_pos hdvd]
      dsimp only
      by_cases hsf : SmartParallelJob.shouldFlush (ratios (n / w)) lim
      · rw [hsf]
        simp only [Bool.true_or, if_true, hdvd, hdiv, hF, hsf, if_pos]
      · rw [Bool.not_eq_true] at hsf
        rw [hsf]
        simp only [Bool.false_or, Bool.false_eq_true, if_false, hdvd, hdiv, hF, hsf]
        simp
    · have hdiv : (n + 1) / w = n / w :=
        Nat.succ_div_of_not_dvd fun hd => hdvd (Nat.mod_eq_zero_of_dvd hd)
      have hmod : (n + 1) % w = n % w + 1 := by
        have h1 := Nat.div_add_mod (n + 1) w
        have h2 := Nat.div_add_mod n w
        rw [hdiv] at h1
        omega
      unfold SmartParallelJob.submitStep
      rw [if_neg hdvd, hmod, hdiv]

lemma pyRangeStep_one (a b : ℤ) : pyRangeStep a b 1 = pyRange1 a b := by
  unfold pyRangeStep pyRange1
  have h1 : (b - a) + 1 - 1 = b - a := by ring
  rw [h1]
  norm_num

lemma pyRange1_slice (a b : ℤ) (i0 i1 : ℕ) (h1 : (i1 : ℤ) ≤ b - a)
    (h01 : i0 ≤ i1) :
    pyListSlice (pyRange1 a b) i0 i1 = pyRange1 (a + (i0 : ℤ)) (a + (i1 : ℤ)) := by
  unfold pyRange1 pyListSlice
  apply List.ext_getElem
  · simp only [List.length_take, List.length_drop, List.length_map,
      List.length_range]
    omega
  · intro n hn1 hn2
    simp only [List.getElem_take, List.getElem_drop, List.getElem_map,
      List.getElem_range]
    push_cast
    ring

lemma pyRound_bounds (q : ℚ) : ⌊q⌋ ≤ pyRound q ∧ pyRound q ≤ ⌊q⌋ + 1 := by
  unfold pyRound
  split_ifs <;> omega

lemma pyMod1_bounds (q : ℚ) : 0 ≤ pyMod1 q ∧ pyMod1 q < 1 := by
  unfold pyMod1
  constructor
  · linarith [Int.floor_le q]
  · linarith [Int.lt_floor_add_one q]

lemma pyRound_add_two_mul (q : ℚ) (k : ℤ) :
    pyRound (q + ((2 * k : ℤ) : ℚ)) = pyRound q + 2 * k := by
  unfold pyRound
  rw [Int.floor_add_int]
  have hr : q + ((2 * k : ℤ) : ℚ) - ((⌊q⌋ + 2 * k : ℤ) : ℚ) = q - ⌊q⌋ := by
    push_cast
    ring
  rw [hr]
  have hp : (⌊q⌋ + 2 * k) % 2 = ⌊q⌋ % 2 := by omega
  rw [hp]
  split_ifs <;> ring

/-! ## Claims -/

/-- Claim C1: for an explicit-list PointSet with unique site ids and any chunk
size `c > 0`, the sub-PointSets produced by `ProjectPoints.split` at the
position windows `[0, c), [c, 2c), ...` concatenate back to the original
ordered site sequence exactly once, no site id appears in two different
partitions, and each window's split is exactly the positional slice of the
site list. -/
theorem c1_partition_coverage_and_disjointness (l : List ℤ) (c : ℕ)
    (hc : 0 < c) (hnd : l.Nodup) :
    ((List.range (ceilDiv l.length c)).map fun k =>
        pyListSlice l (k * c) ((k + 1) * c)).flatten = l ∧
    (∀ k k' : ℕ, k ≠ k' → ∀ x, x ∈ pyListSlice l (k * c) ((k + 1) * c) →
      x ∉ pyListSlice l (k' * c) ((k' + 1) * c)) ∧
    (∀ (oracle k : ℕ),
      (ProjectPoints.split oracle (k * c) ((k + 1) * c) (Sites.list l)).map
        ProjectPoints.sites = .ok (Sites.list (pyListSlice l (k * c) ((k + 1) * c)))) := by
  refine ⟨?_, ?_, fun oracle k => rfl⟩
  · have hmap : (fun k => pyListSlice l (k * c) ((k + 1) * c)) =
        fun k => (l.drop (k * c)).take c := by
      funext k
      exact pyListSlice_chunk l c k
    rw [hmap, chunks_flatten]
    exact List.take_of_length_le (le_ceilDiv_mul l.length c hc)
  · intro k k' hne x hx hx'
    rw [pyListSlice_chunk] at hx hx'
    rcases Nat.lt_or_ge k k' with h | h
    · exact chunk_disjoint_aux l c hnd h x hx hx'
    · have hlt : k' < k := Nat.lt_of_le_of_ne h fun he => hne he.symm
      exact chunk_disjoint_aux l c hnd hlt x hx' hx

/-- Witness for C1 at a concrete non-sequential site list and chunk size 2. -/
theorem c1_partition_coverage_and_disjointness_witness :
    0 < 2 ∧ ([10, 3, 7, 2, 5] : List ℤ).Nodup ∧
    ((List.range (ceilDiv (List.length ([10, 3, 7, 2, 5] : List ℤ)) 2)).map fun k =>
        pyListSlice [10, 3, 7, 2, 5] (k * 2) ((k + 1) * 2)).flatten = [10, 3, 7, 2, 5] :=
  ⟨by decide, by decide,
    (c1_partition_coverage_and_disjointness [10, 3, 7, 2, 5] 2 (by decide) (by decide)).1⟩

/-- Claim C3: for a PointSet specified as a unit-step range with start `s` and
an open (falsy) stop, the sites setter resolves the stop to the oracle's row
count `R` and materializes `range(s, R)`, so `ProjectPoints.split` takes the
explicit-list branch and slicing positions `[i0, i1)` (in range) yields
exactly the `i1 - i0` sites `range(s + i0, s + i1)` — new start `s + i0`,
new stop `s + i1`. -/
theorem c3_unit_step_range_split (s : ℤ) (step : Option ℤ) (R i0 i1 : ℕ)
    (hstep : step.getD 1 = 1) (hs0 : 0 ≤ s) (h01 : i0 ≤ i1)
    (hbound : s + (i1 : ℤ) ≤ (R : ℤ)) :
    (ProjectPoints.split R i0 i1 (Sites.slice s none step)).map
        ProjectPoints.sites =
      .ok (Sites.list (pyRange1 (s + (i0 : ℤ)) (s + (i1 : ℤ)))) := by
  have hsR : s ≤ (R : ℤ) := le_trans (by omega) hbound
  have hparse : Sites.parse R (Sites.slice s none step) =
      Sites.list (pyRange1 s (R : ℤ)) := by
    show Sites.list (pyResolvedSlice s (R : ℤ) (step.getD 1)) =
      Sites.list (pyRange1 s (R : ℤ))
    unfold pyResolvedSlice
    rw [hstep, if_neg (not_lt.mpr hs0), min_eq_left hsR, pyRangeStep_one]
  unfold ProjectPoints.split ProjectPoints.make
  dsimp only
  rw [hparse]
  dsimp only [Except.map]
  rw [pyRange1_slice s (R : ℤ) i0 i1 (by omega) h01]

/-- Witness for C3: the source docstring's own example — sites `20:`, oracle
row count 100, split at positions `[0, 10)` gives sites `range(20, 30)`. -/
theorem c3_unit_step_range_split_witness :
    (Option.getD (some (1 : ℤ)) 1 = 1 ∧ (0 : ℤ) ≤ 20 ∧ (0 : ℕ) ≤ 10 ∧
      (20 : ℤ) + (10 : ℕ) ≤ ((100 : ℕ) : ℤ)) ∧
    (ProjectPoints.split 100 0 10 (Sites.slice 20 none (some 1))).map
        ProjectPoints.sites =
      .ok (Sites.list (pyRange1 (20 + ((0 : ℕ) : ℤ)) (20 + ((10 : ℕ) : ℤ)))) :=
  ⟨⟨by decide, by decide, by decide, by decide⟩,
    c3_unit_step_range_split 20 (some 1) 100 0 10 (by decide) (by decide)
      (by decide) (by decide)⟩

/-- Counterexample for claim C2: with 4 explicit sites, nodes = 4, ppn = 1 and
no sites-per-core override, the resolved chunk size is `c = ceil(4/4) = 1`, so
the claim predicts `ceil(n/c) = 4` sub-plans; but the iterator limit is
`N = ceil(n_sites/p_tot) = 1`, and iteration yields exactly one sub-plan before
stopping, not four — the node/ppn configuration does matter. -/
theorem c2_iteration_count_counterexample :
    ExecutionControl.sites_per_core
        { rawNodes := some 4, rawPpn := some 1, rawSitesPerCore := none,
          level := "supervisor",
          pp := ProjectPoints.make 0 (Sites.list [0, 1, 2, 3]),
          resFiles := ["f"] } = some (1, false) ∧
      (ExecutionControl.iterAll
        { rawNodes := some 4, rawPpn := some 1, rawSitesPerCore := none,
          level := "supervisor",
          pp := ProjectPoints.make 0 (Sites.list [0, 1, 2, 3]),
          resFiles := ["f"] } 0).map List.length = .ok 1 ∧
      ceilDiv 4 1 = 4 ∧ (1 : ℕ) ≠ 4 := by
  refine ⟨by decide, ?_, by decide, by decide⟩
  rfl

/-- Claim C2 (amended): for a supervisor-level ExecutionControl over an
explicit list of `n` sites whose resolved chunk size is `c > 0`, the unit count
is `N = ceil(n_sites / p_tot)` (not `ceil(n/c)`), and iterating yields exactly
`min (ceil(n/c)) N` non-empty sub-plans and then stops; the claimed count
`ceil(n/c)` is reached only when it does not exceed `N`. -/
theorem c2_iteration_yield_count (ec : ExecutionControl) (oracle : ℕ)
    (l : List ℤ) (c : ℕ) (w : Bool) (hsup : ec.level = "supervisor")
    (hsites : ec.pp.sites = Sites.list l)
    (hraw : Sites.parse oracle ec.pp.raw = Sites.list l)
    (hspc : ec.sites_per_core = some (c, w)) (hc : 0 < c) :
    ec.N = some (ceilDiv (l.length * ec.resFiles.length) ec.p_tot) ∧
    (ec.iterAll oracle).map List.length =
      .ok (min (ceilDiv l.length c)
        (ceilDiv (l.length * ec.resFiles.length) ec.p_tot)) := by
  have hns : ec.n_sites = some (l.length * ec.resFiles.length) := by
    unfold ExecutionControl.n_sites
    rw [hsites]
  have hN : ec.N = some (ceilDiv (l.length * ec.resFiles.length) ec.p_tot) := by
    unfold ExecutionControl.N
    rw [hns]
    rfl
  refine ⟨hN, ?_⟩
  unfold ExecutionControl.iterAll
  rw [hsup]
  have hlv : ExecutionControl.splitLevelOf "supervisor" = .ok "core" := rfl
  rw [hlv, hN, hspc]
  have h := ec.iterLoop_list_len oracle "core" c hc l hraw
    (ceilDiv (l.length * ec.resFiles.length) ec.p_tot) 0
  rw [h, Nat.sub_zero, Nat.min_comm]

/-- Witness for the amended C2: 10 explicit sites, chunk-size override 3,
nodes = 5, ppn = 1 — the plan yields `min(ceil(10/3), ceil(10/5)) = 2`
sub-plans, not the 4 the unamended claim would predict. -/
theorem c2_iteration_yield_count_witness :
    (ExecutionControl.iterAll
      { rawNodes := some 5, rawPpn := some 1, rawSitesPerCore := some (some 3),
        level := "supervisor",
        pp := ProjectPoints.make 0 (Sites.list [0, 1, 2, 3, 4, 5, 6, 7, 8, 9]),
        resFiles := ["f"] } 0).map List.length =
      .ok (min (ceilDiv 10 3) (ceilDiv (10 * 1) 5)) :=
  (c2_iteration_yield_count
    { rawNodes := some 5, rawPpn := some 1, rawSitesPerCore := some (some 3),
      level := "supervisor",
      pp := ProjectPoints.make 0 (Sites.list [0, 1, 2, 3, 4, 5, 6, 7, 8, 9]),
      resFiles := ["f"] } 0 [0, 1, 2, 3, 4, 5, 6, 7, 8, 9] 3 false rfl rfl rfl
    rfl (by decide)).2

/-- Claim C5: chunk-size resolution order of `sites_per_core`: a truthy
explicit user value wins; with no explicit value (key absent or `None`) and a
finite total site count the chunk size is `ceil(n_sites / p_tot)` with no
warning; with no explicit value and an unresolved (`'inf'`) site count the
fixed fallback 100 is used and a `ConfigWarning` (not an error) is raised.
Scenario A: 250 explicit sites, nodes = 1, ppn = 4, no override resolve to
chunk size `ceil(250/4) = 63`, and the split yields 4 partitions of sizes
`[63, 63, 63, 61]`. -/
theorem c5_chunk_size_resolution :
    (∀ (ec : ExecutionControl) (v : ℕ), ec.rawSitesPerCore = some (some v) →
      v ≠ 0 → ec.sites_per_core = some (v, false)) ∧
    (∀ (ec : ExecutionControl) (n : ℕ),
      ec.rawSitesPerCore = none ∨ ec.rawSitesPerCore = some none →
      ec.n_sites = some n →
      ec.sites_per_core = some (ceilDiv n ec.p_tot, false)) ∧
    (∀ ec : ExecutionControl,
      ec.rawSitesPerCore = none ∨ ec.rawSitesPerCore = some none →
      ec.n_sites = none → ec.sites_per_core = some (100, true)) ∧
    (ExecutionControl.sites_per_core
        { rawNodes := some 1, rawPpn := some 4, rawSitesPerCore := none,
          level := "supervisor",
          pp := ProjectPoints.make 0 (Sites.list ((List.range 250).map Int.ofNat)),
          resFiles := ["f"] } = some (63, false) ∧
      (ExecutionControl.iterAll
        { rawNodes := some 1, rawPpn := some 4, rawSitesPerCore := none,
          level := "supervisor",
          pp := ProjectPoints.make 0 (Sites.list ((List.range 250).map Int.ofNat)),
          resFiles := ["f"] } 0).map (List.map fun s => s.pp.sites.len) =
        .ok [63, 63, 63, 61]) := by
  refine ⟨?_, ?_, ?_, by rfl, by rfl⟩
  · intro ec v hv hnz
    unfold ExecutionControl.sites_per_core
    rw [hv]
    simp [hnz]
  · intro ec n habs hn
    rcases habs with h | h <;>
      · unfold ExecutionControl.sites_per_core
        rw [h, hn]
  · intro ec habs hn
    rcases habs with h | h <;>
      · unfold ExecutionControl.sites_per_core
        rw [h, hn]

/-- Witness for C5: an explicit truthy `sites_per_core` of 42 is taken as is. -/
theorem c5_chunk_size_resolution_witness :
    ExecutionControl.sites_per_core
        { rawNodes := some 1, rawPpn := some 4, rawSitesPerCore := some (some 42),
          level := "supervisor",
          pp := ProjectPoints.make 0 (Sites.list [0, 1, 2]),
          resFiles := ["f"] } = some (42, false) :=
  c5_chunk_size_resolution.1
    { rawNodes := some 1, rawPpn := some 4, rawSitesPerCore := some (some 42),
      level := "supervisor", pp := ProjectPoints.make 0 (Sites.list [0, 1, 2]),
      resFiles := ["f"] } 42 rfl (by decide)

/-- Claim C9: for an explicit-list PointSet, the total site count `n_sites`
driving every count-dependent computation is the site-list length times the
number of resource files; both the iterator limit `N` and the default chunk
size `sites_per_core` are `ceil` of that product over `p_tot`, so they scale
with the number of analysis-year resource files. -/
theorem c9_n_sites_scales_with_res_files (ec : ExecutionControl) (l : List ℤ)
    (hsites : ec.pp.sites = Sites.list l) :
    ec.n_sites = some (l.length * ec.resFiles.length) ∧
    ec.N = some (ceilDiv (l.length * ec.resFiles.length) ec.p_tot) ∧
    (ec.rawSitesPerCore = none →
      ec.sites_per_core =
        some (ceilDiv (l.length * ec.resFiles.length) ec.p_tot, false)) := by
  have hns : ec.n_sites = some (l.length * ec.resFiles.length) := by
    unfold ExecutionControl.n_sites
    rw [hsites]
  refine ⟨hns, ?_, ?_⟩
  · unfold ExecutionControl.N
    rw [hns]
    rfl
  · intro habs
    unfold ExecutionControl.sites_per_core
    rw [habs, hns]

/-- Witness for C9: 5 sites and 2 resource files give `n_sites = 10`, and with
`p_tot = 2` the default chunk size is `ceil(10/2) = 5`. -/
theorem c9_n_sites_scales_with_res_files_witness :
    ExecutionControl.n_sites
        { rawNodes := some 2, rawPpn := none, rawSitesPerCore := none,
          level := "supervisor",
          pp := ProjectPoints.make 0 (Sites.list [0, 1, 2, 3, 4]),
          resFiles := ["f2010", "f2011"] } = some (5 * 2) :=
  (c9_n_sites_scales_with_res_files _ [0, 1, 2, 3, 4] rfl).1

/-- Claim C6: the flush decision is `ratio >= limit` exactly, and over a whole
run the sink's flush is called exactly once per mid-run gather round whose
sampled ratio reaches the limit, plus exactly one unconditional forced flush
after the last unit, whatever the final sampled ratio is. -/
theorem c6_flush_determinism (w units : ℕ) (lim : ℚ) (ratios : ℕ → ℚ)
    (_hw : 0 < w) :
    (∀ r : ℚ, SmartParallelJob.shouldFlush r lim = true ↔ lim ≤ r) ∧
    (SmartParallelJob.run w units lim ratios).flushCalls =
      ((List.range (units / w)).filter fun r =>
        SmartParallelJob.shouldFlush (ratios r) lim).length + 1 := by
  constructor
  · intro r
    simp [SmartParallelJob.shouldFlush]
  · unfold SmartParallelJob.run
    rw [SmartParallelJob.runFold_spec w lim ratios units]
    unfold SmartParallelJob.gatherAndFlush
    simp [Bool.or_true]

/-- Witness for C6: two workers, five units, a limit of 7 (ratios scaled to
tenths: 0.7 becomes 7), with the second mid-round sample at 8 — two mid
rounds, one of them over the limit, so exactly 1 + 1 flushes. -/
theorem c6_flush_determinism_witness :
    0 < 2 ∧
    (SmartParallelJob.run 2 5 7 fun r =>
        if r = 1 then (8 : ℚ) else 5).flushCalls =
      ((List.range (5 / 2)).filter fun r =>
        SmartParallelJob.shouldFlush
          ((fun r => if r = 1 then (8 : ℚ) else 5) r) 7).length + 1 :=
  ⟨by decide,
    (c6_flush_determinism 2 5 7
      (fun r => if r = 1 then (8 : ℚ) else 5) (by decide)).2⟩

/-- Counterexample for claim C7: in the spec's Scenario D (worker pool 4, 10
units, ratio first reaching the limit — 0.7, scaled to tenths as 7 — at the
gather after round 2) the worker pool is recycled twice, not once:
`client.restart()` sits inside the same guard as the flush, so the forced
final flush also recycles the pool. -/
theorem c7_pool_recycle_counterexample :
    (SmartParallelJob.run 4 10 7 fun r =>
        if r = 1 then (8 : ℚ) else 5).restartCalls = 2 ∧
    (SmartParallelJob.run 4 10 7 fun r =>
        if r = 1 then (8 : ℚ) else 5).restartCalls ≠ 1 := by
  constructor <;> decide

/-- Claim C7 (amended): the executor hands gathered results to the sink's
accumulator after every `w` submissions and once at end of input
(`units / w + 1` accumulate calls in total), and recycles the worker pool at
every flush, the forced final one included. In Scenario D (pool 4, 10 units,
ratio reaching the limit at the gather after round 2) accumulate is called 3
times and flush twice — once mid-run, once at the forced end — and the pool is
recycled twice, once per flush. -/
theorem c7_round_accounting (w units : ℕ) (lim : ℚ) (ratios : ℕ → ℚ)
    (_hw : 0 < w) :
    (SmartParallelJob.run w units lim ratios).accumulateCalls = units / w + 1 ∧
    (SmartParallelJob.run w units lim ratios).restartCalls =
      (SmartParallelJob.run w units lim ratios).flushCalls ∧
    SmartParallelJob.run 4 10 7
        (fun r => if r = 1 then (8 : ℚ) else 5) =
      { pending := 0, accumulateCalls := 3, flushCalls := 2, restartCalls := 2 } := by
  refine ⟨?_, ?_, by decide⟩
  · unfold SmartParallelJob.run
    rw [SmartParallelJob.runFold_spec w lim ratios units]
    unfold SmartParallelJob.gatherAndFlush
    simp [Bool.or_true]
  · unfold SmartParallelJob.run
    rw [SmartParallelJob.runFold_spec w lim ratios units]
    unfold SmartParallelJob.gatherAndFlush
    simp [Bool.or_true]

/-- Witness for the amended C7 at Scenario D's concrete parameters. -/
theorem c7_round_accounting_witness :
    0 < 4 ∧
    (SmartParallelJob.run 4 10 7 fun r =>
        if r = 1 then (8 : ℚ) else 5).accumulateCalls = 10 / 4 + 1 :=
  ⟨by decide,
    (c7_round_accounting 4 10 7
      (fun r => if r = 1 then (8 : ℚ) else 5) (by decide)).1⟩

/-- Claim C10: only a supervisor-level ExecutionControl can be iterated: any
other level (in particular the `core` level of the instances produced by
iteration, which always carry level `core`) raises the `KeyError` of
`split_level` at the very start of iteration, before any sub-plan is produced,
so the node-to-core hierarchy is exactly one split deep. -/
theorem c10_only_supervisor_iterates :
    (∀ (ec : ExecutionControl) (oracle : ℕ), ec.level ≠ "supervisor" →
      ec.iterAll oracle =
        .error ("Current execution level cannot be split: " ++ ec.level)) ∧
    (∀ (ec : ExecutionControl) (oracle : ℕ) (subs : List ExecutionControl),
      ec.iterAll oracle = .ok subs → ∀ s ∈ subs, s.level = "core") := by
  constructor
  · intro ec oracle h
    unfold ExecutionControl.iterAll ExecutionControl.splitLevelOf
    rw [if_neg h]
  · intro ec oracle subs h s hs
    unfold ExecutionControl.iterAll at h
    cases hlv : ExecutionControl.splitLevelOf ec.level with
    | error e => rw [hlv] at h; exact absurd h (by simp)
    | ok lvl =>
      rw [hlv] at h
      have hcore : lvl = "core" := by
        unfold ExecutionControl.splitLevelOf at hlv
        by_cases hsup : ec.level = "supervisor"
        · rw [if_pos hsup] at hlv; exact (Except.ok.injEq _ _).mp hlv.symm
        · rw [if_neg hsup] at hlv; exact absurd hlv (by simp)
      subst hcore
      cases hn : ec.N with
      | none => rw [hn] at h; exact absurd h (by simp)
      | some n =>
        rw [hn] at h
        cases hc : ec.sites_per_core with
        | none => rw [hc] at h; exact absurd h (by simp)
        | some cw =>
          rw [hc] at h
          exact ExecutionControl.iterLoop_level ec oracle "core" cw.1 n 0 subs h s hs

/-- Counterexample for claim C8: at the non-negative input `hours = 999/1000`
the walltime string is `"00:60:00"` — the minute value `round(60 * 0.999) = 60`
falls outside the claimed `00`-`59` range, so the claim as stated fails. -/
theorem c8_walltime_counterexample :
    (0 : ℚ) ≤ 999 / 1000 ∧
    SubprocessManager.minuteOf (999 / 1000) = 60 ∧
    ¬SubprocessManager.minuteOf (999 / 1000) ≤ 59 ∧
    SubprocessManager.walltime (999 / 1000) = "00:60:00" := by
  have hfl : ⌊(999 / 1000 : ℚ)⌋ = 0 := Int.floor_eq_iff.mpr (by norm_num)
  have harg : 60 * pyMod1 (999 / 1000 : ℚ) = 2997 / 50 := by
    unfold pyMod1
    rw [hfl]
    norm_num
  have hfl2 : ⌊(2997 / 50 : ℚ)⌋ = 59 := Int.floor_eq_iff.mpr (by norm_num)
  have hmin : SubprocessManager.minuteOf (999 / 1000) = 60 := by
    unfold SubprocessManager.minuteOf pyRound
    rw [harg, hfl2]
    norm_num
  refine ⟨by norm_num, hmin, by omega, ?_⟩
  show pad2 ⌊(999 / 1000 : ℚ)⌋ ++ ":" ++
      pad2 (pyRound (60 * pyMod1 (999 / 1000 : ℚ))) ++ ":00" = "00:60:00"
  have hmin2 : pyRound (60 * pyMod1 (999 / 1000 : ℚ)) = 60 := hmin
  rw [hfl, hmin2]
  rfl

/-- Claim C8 (amended): for every non-negative `hours`,
`walltime hours = H:MM:00` where `H` is `floor(hours)` zero-padded to a minimum
width of two digits, the minute value is `round(60 * frac(hours))`, which lies
in `0`-`60` inclusive — it is `60` exactly when the fractional part is at least
`119/120` (59.5 minutes), in which case the minute field reads `60` instead of
rolling over — and the second field is `00`; hour and minute together represent
the requested duration rounded to the nearest minute
(`60 * floor(hours) + minute = round(60 * hours)`). -/
theorem c8_walltime_format (h : ℚ) (hh : 0 ≤ h) :
    SubprocessManager.walltime h =
      pad2 ⌊h⌋ ++ ":" ++ pad2 (SubprocessManager.minuteOf h) ++ ":00" ∧
    0 ≤ ⌊h⌋ ∧
    0 ≤ SubprocessManager.minuteOf h ∧ SubprocessManager.minuteOf h ≤ 60 ∧
    (SubprocessManager.minuteOf h ≤ 59 ↔ pyMod1 h < 119 / 120) ∧
    60 * ⌊h⌋ + SubprocessManager.minuteOf h = pyRound (60 * h) := by
  obtain ⟨hf0, hf1⟩ := pyMod1_bounds h
  have hq0 : (0 : ℚ) ≤ 60 * pyMod1 h := by linarith
  have hq60 : (60 : ℚ) * pyMod1 h < 60 := by linarith
  have hflb0 : 0 ≤ ⌊(60 * pyMod1 h : ℚ)⌋ := Int.floor_nonneg.mpr hq0
  have hflb60 : ⌊(60 * pyMod1 h : ℚ)⌋ < 60 := Int.floor_lt.mpr (by exact_mod_cast hq60)
  obtain ⟨hrb1, hrb2⟩ := pyRound_bounds (60 * pyMod1 h)
  refine ⟨rfl, Int.floor_nonneg.mpr hh, ?_, ?_, ?_, ?_⟩
  · unfold SubprocessManager.minuteOf
    omega
  · unfold SubprocessManager.minuteOf
    omega
  · constructor
    · intro hle
      by_contra hge
      push_neg at hge
      have hq : (119 / 2 : ℚ) ≤ 60 * pyMod1 h := by linarith
      have hfl59 : ⌊(60 * pyMod1 h : ℚ)⌋ = 59 := by
        refine Int.floor_eq_iff.mpr ⟨by push_cast; linarith, by push_cast; linarith⟩
      unfold SubprocessManager.minuteOf pyRound at hle
      rw [hfl59] at hle
      split_ifs at hle with h1 h2 h3
      · push_cast at h1
        linarith
      · omega
      · omega
      · omega
    · intro hlt
      have hq : (60 : ℚ) * pyMod1 h < 119 / 2 := by linarith
      by_cases hfl59 : ⌊(60 * pyMod1 h : ℚ)⌋ = 59
      · unfold SubprocessManager.minuteOf pyRound
        rw [hfl59]
        have hr : 60 * pyMod1 h - ((59 : ℤ) : ℚ) < 1 / 2 := by push_cast; linarith
        rw [if_pos hr]
      · have hle58 : ⌊(60 * pyMod1 h : ℚ)⌋ ≤ 58 := by omega
        unfold SubprocessManager.minuteOf
        omega
  · have hdecomp : (60 : ℚ) * h = 60 * pyMod1 h + ((2 * (30 * ⌊h⌋) : ℤ) : ℚ) := by
      unfold pyMod1
      push_cast
      ring
    rw [hdecomp, pyRound_add_two_mul]
    unfold SubprocessManager.minuteOf
    ring

/-- Witness for the amended C8: two and a half hours format as `"02:30:00"`. -/
theorem c8_walltime_format_witness :
    (0 : ℚ) ≤ 5 / 2 ∧ 0 ≤ SubprocessManager.minuteOf (5 / 2) ∧
      SubprocessManager.minuteOf (5 / 2) ≤ 60 :=
  ⟨by norm_num, (c8_walltime_format (5 / 2) (by norm_num)).2.2.1,
    (c8_walltime_format (5 / 2) (by norm_num)).2.2.2.1⟩

/-- Witness for C10: a concrete core-level instance, as produced by iteration,
cannot itself be iterated. -/
theorem c10_only_supervisor_iterates_witness :
    ({ rawNodes := none, rawPpn := none, rawSitesPerCore := none,
       level := "core", pp := ProjectPoints.make 0 (Sites.list [0, 1, 2]),
       resFiles := ["f"] } : ExecutionControl).iterAll 0 =
      .error ("Current execution level cannot be split: " ++ "core") :=
  c10_only_supervisor_iterates.1 _ 0 (by decide)

end ReV
